import Mathlib

/-!
Verification of the keyword-scored retrieval core of the FAQ-answering service
(`agent-simple-rag.js`): knowledge-base document derivation
(`createDocumentsFromData`), question tokenization and stop-word filtering,
term-presence scoring and top-K selection (`findRelevantDocuments`), the
context-assembly fallback, and the process-wide FAQ-data cache of
`runFAQAgent`.

Strings are modelled as Lean `String` (a list of characters); the JS code in
scope only uses ASCII-safe operations (`toLowerCase`, `split(/\s+/)`,
`includes`, template literals), which the corresponding Lean operations mirror.
-/

/-- One entry of `data.en.employees` in `faq.json`: `name`, `role`, `area`. -/
structure Employee where
  name : String
  role : String
  area : String
deriving DecidableEq, Repr

/-- One entry of `data.en.mission`: `title`, `text`, `items`. -/
structure MissionArea where
  title : String
  text : String
  items : List String
deriving DecidableEq, Repr

/-- The `data.en.contact` record: `email`, `phone`. -/
structure Contact where
  email : String
  phone : String
deriving DecidableEq, Repr

/-- The loaded company-information record (`data.en` of the parsed
`faq.json`): identity fields, employees, mission areas, contact and
headquarters address (`data.en.hq.address`). -/
structure FaqData where
  companyName : String
  founder : String
  cofounders : List String
  missionStatement : String
  tagline : String
  story : String
  employees : List Employee
  mission : List MissionArea
  contact : Contact
  hqAddress : String
deriving DecidableEq, Repr

/-- A retrievable document as built by `createDocumentsFromData`: a `content`
text block, a `type` category tag, and the optional metadata fields (`name` on
employee documents, `category` on mission documents). -/
structure Doc where
  content : String
  type : String
  name : Option String
  category : Option String
deriving DecidableEq, Repr

/-- The result of the JS spread `{ ...doc, score }`: all fields of the source
document unchanged, plus a numeric score. -/
structure ScoredDoc where
  doc : Doc
  score : Nat
deriving DecidableEq, Repr

/-- The company-info document pushed first by `createDocumentsFromData`. -/
def companyDoc (d : FaqData) : Doc :=
  ⟨"Company Name: " ++ d.companyName ++ "\nFounder: " ++ d.founder
      ++ "\nCo-founders: " ++ String.intercalate ", " d.cofounders
      ++ "\nMission Statement: " ++ d.missionStatement
      ++ "\nTagline: " ++ d.tagline ++ "\nStory: " ++ d.story,
    "company_info", none, none⟩

/-- The per-employee document of `createDocumentsFromData`. -/
def employeeDoc (e : Employee) : Doc :=
  ⟨"Employee: " ++ e.name ++ "\nRole: " ++ e.role ++ "\nArea: " ++ e.area,
    "employee", some e.name, none⟩

/-- The per-mission-area document of `createDocumentsFromData`. -/
def missionDoc (m : MissionArea) : Doc :=
  ⟨m.title ++ "\n" ++ m.text ++ "\nTechnologies: " ++ String.intercalate ", " m.items,
    "mission", none, some m.title⟩

/-- The contact document pushed last by `createDocumentsFromData`. -/
def contactDoc (d : FaqData) : Doc :=
  ⟨"Contact Information:\nEmail: " ++ d.contact.email
      ++ "\nPhone: " ++ d.contact.phone ++ "\nAddress: " ++ d.hqAddress,
    "contact", none, none⟩

/-- `createDocumentsFromData(data)`: company document, then one document per
employee in order, then one per mission area in order, then the contact
document. -/
def createDocumentsFromData (d : FaqData) : List Doc :=
  [companyDoc d] ++ d.employees.map employeeDoc ++ d.mission.map missionDoc
    ++ [contactDoc d]

/-- The stop-word array hard-coded in `findRelevantDocuments`. -/
def stopWords : List String :=
  ["the", "a", "an", "is", "are", "what", "who", "where", "when", "why",
   "how", "does", "do", "can", "could"]

/-- Does `needle` start the list `haystack`? (character-wise comparison). -/
def startsWithChars : List Char → List Char → Bool
  | [], _ => true
  | _ :: _, [] => false
  | a :: as, b :: bs => a == b && startsWithChars as bs

/-- Does `needle` occur contiguously anywhere in `haystack`? -/
def hasSubList (needle : List Char) : List Char → Bool
  | [] => startsWithChars needle []
  | b :: bs => startsWithChars needle (b :: bs) || hasSubList needle bs

/-- JS `haystack.includes(needle)`: substring containment. -/
def strContains (haystack needle : String) : Bool :=
  hasSubList needle.data haystack.data

/-- JS `toLowerCase()`, applied character by character over the string's
character list. -/
def toLowerStr (s : String) : String :=
  ⟨s.data.map Char.toLower⟩

/-- Split a character list at every whitespace character. A run of `k`
whitespace characters yields `k - 1` empty fragments between its cuts, and
edge whitespace yields empty edge fragments; JS `split(/\s+/)` instead cuts
once per run, yielding empty fragments only at the edges. The difference is
only ever extra empty fragments, which the `length > 2` filter that follows
removes, so the pipelines agree. -/
def splitWsChars : List Char → List Char → List (List Char)
  | acc, [] => [acc.reverse]
  | acc, c :: cs =>
    if c.isWhitespace then acc.reverse :: splitWsChars [] cs
    else splitWsChars (c :: acc) cs

/-- The `questionWords` pipeline of `findRelevantDocuments`:
`question.toLowerCase().split(/\s+/)` filtered by `word.length > 2` and by
absence from the stop-word array. -/
def questionWords (question : String) : List String :=
  (((splitWsChars [] (toLowerStr question).data).map String.mk).filter
      (fun w => decide (2 < w.length))).filter
    (fun w => !(stopWords.contains w))

/-- The scoring loop of `findRelevantDocuments`: start from 0 and add 1 for
each entry of `words` contained in the lowercased document content. -/
def scoreDoc (words : List String) (doc : Doc) : Nat :=
  words.foldl (fun score word =>
    if strContains (toLowerStr doc.content) word then score + 1 else score) 0

/-- The `scoredDocs` array of `findRelevantDocuments`:
`documents.map(doc => ({ ...doc, score }))`. -/
def scoredDocs (question : String) (documents : List Doc) : List ScoredDoc :=
  documents.map (fun doc => ⟨doc, scoreDoc (questionWords question) doc⟩)

/-- The order realised by the JS stable `sort((a, b) => b.score - a.score)` on
position-annotated elements: strictly higher score first, and on equal scores
the earlier original position first. ECMAScript `Array.prototype.sort` is
required to be stable, and for position-annotated elements the stable result
is the unique permutation sorted by this relation. -/
def rankLE (a b : Nat × ScoredDoc) : Prop :=
  b.2.score < a.2.score ∨ (a.2.score = b.2.score ∧ a.1 ≤ b.1)

instance : DecidableRel rankLE := by
  intro a b
  unfold rankLE
  infer_instance

instance : IsTotal (Nat × ScoredDoc) rankLE := by
  constructor
  intro a b
  rcases Nat.lt_trichotomy a.2.score b.2.score with h | h | h
  · exact Or.inr (Or.inl h)
  · rcases Nat.le_total a.1 b.1 with h' | h'
    · exact Or.inl (Or.inr ⟨h, h'⟩)
    · exact Or.inr (Or.inr ⟨h.symm, h'⟩)
  · exact Or.inl (Or.inl h)

instance : IsTrans (Nat × ScoredDoc) rankLE := by
  constructor
  intro a b c hab hbc
  rcases hab with hab | ⟨hab, hab'⟩
  · rcases hbc with hbc | ⟨hbc, _⟩
    · exact Or.inl (Nat.lt_trans hbc hab)
    · exact Or.inl (hbc ▸ hab)
  · rcases hbc with hbc | ⟨hbc, hbc'⟩
    · exact Or.inl (hab ▸ hbc)
    · exact Or.inr ⟨hab.trans hbc, hab'.trans hbc'⟩

/-- The JS stable sort `(a, b) => b.score - a.score` on a list of scored
documents: annotate each element with its position, sort by `rankLE`
(score descending, ties by position), and drop the positions. -/
def sortScoredDesc (l : List ScoredDoc) : List ScoredDoc :=
  (l.enum.insertionSort rankLE).map Prod.snd

/-- `findRelevantDocuments(question, documents)`: score every document,
keep those with `score > 0`, stable-sort by score descending, `slice(0, 5)`. -/
def findRelevantDocuments (question : String) (documents : List Doc) :
    List ScoredDoc :=
  (sortScoredDesc ((scoredDocs question documents).filter
      (fun d => decide (0 < d.score)))).take 5

/-- The per-document block of the context: `` `${metadata}\n${doc.content}` ``
where `metadata` is `[type]` when `doc.type` is truthy (a non-empty string). -/
def docContextBlock (d : ScoredDoc) : String :=
  (if d.doc.type ≠ "" then "[" ++ d.doc.type ++ "]" else "") ++ "\n" ++ d.doc.content

/-- The zero-match fallback of `runFAQAgent`:
`` `Company: ${companyName}\n${missionStatement}` ``. -/
def fallbackContext (d : FaqData) : String :=
  "Company: " ++ d.companyName ++ "\n" ++ d.missionStatement

/-- The context assembly of `runFAQAgent`: join the retrieved documents'
blocks with `"\n\n---\n\n"`, or fall back to the synthetic company summary
when the retrieved sequence is empty. -/
def buildContext (d : FaqData) (question : String) : String :=
  let relevantDocs := findRelevantDocuments question (createDocumentsFromData d)
  if 0 < relevantDocs.length then
    String.intercalate "\n\n---\n\n" (relevantDocs.map docContextBlock)
  else
    fallbackContext d

/-- State of the process-wide cache of `agent-simple-rag.js`: the
`faqDataCache` module variable, plus an instrumentation counter of how many
times the loader (`fs.readFileSync` + `JSON.parse`) ran. -/
structure CacheState where
  faqDataCache : Option FaqData
  loaderCalls : Nat
deriving DecidableEq, Repr

/-- The cache before the first call: `let faqDataCache = null`. -/
def initialCache : CacheState := ⟨none, 0⟩

/-- The data-access part of one `runFAQAgent` call: when the cache is empty,
invoke the loader (whose parse result is `src`) and fill the cache; then
derive the documents from the cached data. Returns the new cache state and
the document list this call uses. -/
def agentLoadStep (src : FaqData) (s : CacheState) : CacheState × List Doc :=
  match s.faqDataCache with
  | none => (⟨some src, s.loaderCalls + 1⟩, createDocumentsFromData src)
  | some d => (s, createDocumentsFromData d)

/-- Run `n` successive `runFAQAgent` data accesses in one process, starting
from the empty cache; collects the document list of every call in order. -/
def runAgentCalls (src : FaqData) : Nat → CacheState × List (List Doc)
  | 0 => (initialCache, [])
  | n + 1 =>
    let p := runAgentCalls src n
    let q := agentLoadStep src p.1
    (q.1, p.2 ++ [q.2])

/-- An example knowledge base (the shape of §8's example scenarios). -/
def exData : FaqData :=
  ⟨"Acme", "Max", ["Eva"], "We build APIs", "Go fast", "Founded in a garage",
    [⟨"Ana", "Engineer", "Backend"⟩, ⟨"Leo", "Designer", "Web"⟩],
    [⟨"Backend", "We build APIs", ["Node"]⟩],
    ⟨"hi@acme.io", "555-0100"⟩, "1 Acme Way"⟩

/-- An example document whose content contains the word "mission". -/
def exMissionTextDoc : Doc := ⟨"Our mission is growth", "mission", none, none⟩

/-! ### Helper lemmas -/

lemma foldl_score_eq_countP {α : Type} (p : α → Bool) :
    ∀ (l : List α) (n : Nat),
      l.foldl (fun s a => if p a then s + 1 else s) n = n + l.countP p
  | [], n => by simp
  | a :: l, n => by
    rw [List.foldl_cons, List.countP_cons]
    by_cases h : p a
    · rw [if_pos h, if_pos h, foldl_score_eq_countP p l (n + 1)]
      omega
    · rw [if_neg h, if_neg h, foldl_score_eq_countP p l n]
      omega

lemma scoreDoc_eq_countP (words : List String) (doc : Doc) :
    scoreDoc words doc
      = words.countP (fun w => strContains (toLowerStr doc.content) w) := by
  unfold scoreDoc
  simpa using foldl_score_eq_countP _ words 0

lemma str_ne_empty_of_pos (s : String) (h : 0 < s.length) : s ≠ "" := by
  intro hc
  subst hc
  exact absurd h (by decide)

/-! ### C3 : relevance score -/

/-- C3 (amended): the relevance score of a document equals the number of
entries of the extracted term list — counted with multiplicity, one point per
entry — that occur as case-insensitive substrings of the document content,
and is therefore at most the length of the term list. -/
theorem scoreDoc_counts_matching_entries (words : List String) (doc : Doc) :
    scoreDoc words doc
        = (words.filter (fun w => strContains (toLowerStr doc.content) w)).length ∧
      scoreDoc words doc ≤ words.length := by
  constructor
  · rw [scoreDoc_eq_countP, List.countP_eq_length_filter]
  · rw [scoreDoc_eq_countP]
    exact List.countP_le_length _

/-- C3 (counterexample): the question "mission mission" yields the term list
["mission", "mission"] — not a set — and a document containing "mission"
scores 2, while only 1 distinct extracted term occurs in its content, so the
score is not the number of matching terms of a duplicate-free term set and
exceeds the cardinality of that set. -/
theorem score_counts_duplicate_terms :
    questionWords "mission mission" = ["mission", "mission"] ∧
      scoreDoc (questionWords "mission mission") exMissionTextDoc = 2 ∧
      ((questionWords "mission mission").dedup.filter
          (fun w => strContains (toLowerStr exMissionTextDoc.content) w)).length = 1 := by
  refine ⟨by decide, by decide, ?_⟩
  have hd : (questionWords "mission mission").dedup = ["mission"] := by decide
  rw [hd]
  decide

/-! ### C8 : score monotonicity -/

/-- C8: if every term of `T` occurring (case-insensitively) in `B`'s content
also occurs in `A`'s content, then `A` scores at least as high as `B`. -/
theorem scoreDoc_monotone (T : List String) (A B : Doc)
    (h : ∀ t ∈ T, strContains (toLowerStr B.content) t = true →
        strContains (toLowerStr A.content) t = true) :
    scoreDoc T B ≤ scoreDoc T A := by
  rw [scoreDoc_eq_countP, scoreDoc_eq_countP]
  exact List.countP_mono_left h

/-- An example pair of documents for the monotonicity witness. -/
def exDocWide : Doc := ⟨"alpha beta", "company_info", none, none⟩

/-- A second example document, matching fewer terms. -/
def exDocNarrow : Doc := ⟨"alpha", "company_info", none, none⟩

theorem scoreDoc_monotone_witness :
    scoreDoc ["alpha", "beta"] exDocNarrow ≤ scoreDoc ["alpha", "beta"] exDocWide :=
  scoreDoc_monotone ["alpha", "beta"] exDocWide exDocNarrow (by decide)

/-! ### C7 : the tokenizer -/

/-- Modelled from the spec's §4.2 wording: lowercase the question, split on
runs of whitespace (splitting at each whitespace character and dropping the
empty fragments a run or an edge produces), discard tokens of length ≤ 2,
discard stop-words. -/
def extractTermsSpec (question : String) : List String :=
  ((((splitWsChars [] (toLowerStr question).data).map String.mk).filter
        (fun w => !(w == ""))).filter
      (fun w => !(decide (w.length ≤ 2)))).filter
    (fun w => !(stopWords.contains w))

lemma len_gt_two_bool_eq (w : String) :
    decide (2 < w.length) = (!(decide (w.length ≤ 2)) && !(w == "")) := by
  by_cases h : w = ""
  · subst h
    decide
  · have hne : (w == "") = false := by
      simp [h]
    rw [hne]
    simp only [Bool.not_false, Bool.and_true]
    rw [← decide_not]
    exact decide_eq_decide.mpr (by omega)

/-- C7: the implemented token pipeline returns exactly the tokens the spec
describes (lowercase, whitespace split, length > 2, stop-words removed), and
the result can be empty — a valid outcome, not an error. -/
theorem questionWords_matches_spec :
    (∀ question, questionWords question = extractTermsSpec question) ∧
      questionWords "who can do the" = [] := by
  constructor
  · intro question
    unfold questionWords extractTermsSpec
    refine congrArg _ ?_
    rw [List.filter_filter]
    refine List.filter_congr ?_
    intro w _
    rw [len_gt_two_bool_eq]
  · decide

/-! ### C6 : derivation completeness and order -/

/-- C6: for every knowledge base, document derivation yields exactly
`1 + |employees| + |missions| + 1` documents, and positionally: the company
document first, then the employee documents in employee order, then the
mission documents in mission order, then the contact document last. -/
theorem createDocumentsFromData_count_and_order (d : FaqData) :
    (createDocumentsFromData d).length
        = 1 + d.employees.length + d.mission.length + 1 ∧
      (createDocumentsFromData d).take 1 = [companyDoc d] ∧
      ((createDocumentsFromData d).drop 1).take d.employees.length
        = d.employees.map employeeDoc ∧
      (((createDocumentsFromData d).drop 1).drop d.employees.length).take
          d.mission.length
        = d.mission.map missionDoc ∧
      (createDocumentsFromData d).drop (1 + d.employees.length + d.mission.length)
        = [contactDoc d] := by
  have hshape : createDocumentsFromData d
      = [companyDoc d] ++ (d.employees.map employeeDoc
          ++ (d.mission.map missionDoc ++ [contactDoc d])) := by
    simp [createDocumentsFromData]
  have hshape2 : createDocumentsFromData d
      = ([companyDoc d] ++ d.employees.map employeeDoc ++ d.mission.map missionDoc)
        ++ [contactDoc d] := by
    simp [createDocumentsFromData]
  refine ⟨?_, ?_, ?_, ?_, ?_⟩
  · rw [hshape]
    simp only [List.length_append, List.length_map, List.length_singleton,
      List.length_cons, List.length_nil]
    omega
  · rw [hshape, List.take_left' (by simp)]
  · rw [hshape, List.drop_left' (by simp), List.take_left' (by simp)]
  · rw [hshape, List.drop_left' (by simp), List.drop_left' (by simp),
      List.take_left' (by simp)]
  · have hlen : ([companyDoc d] ++ d.employees.map employeeDoc
        ++ d.mission.map missionDoc).length
        = 1 + d.employees.length + d.mission.length := by
      simp only [List.length_append, List.length_map, List.length_singleton,
        List.length_cons, List.length_nil]
    rw [hshape2, List.drop_left' hlen]

/-! ### C9 : document invariants -/

/-- C9: every derived document has non-empty content and carries a category
tag from the fixed set, for every knowledge base (empty string fields
included). -/
theorem derived_doc_invariants (d : FaqData) (doc : Doc)
    (hmem : doc ∈ createDocumentsFromData d) :
    doc.content ≠ "" ∧
      doc.type ∈ (["company_info", "employee", "mission", "contact"] : List String) := by
  simp only [createDocumentsFromData, List.mem_append, List.mem_singleton,
    List.mem_map] at hmem
  rcases hmem with ((h | ⟨e, _, h⟩) | ⟨m, _, h⟩) | h
  · subst h
    refine ⟨str_ne_empty_of_pos _ ?_, by simp [companyDoc]⟩
    simp only [companyDoc, String.length_append]
    have h1 : 0 < ("Company Name: " : String).length := by decide
    omega
  · rw [← h]
    refine ⟨str_ne_empty_of_pos _ ?_, by simp [employeeDoc]⟩
    simp only [employeeDoc, String.length_append]
    have h1 : 0 < ("Employee: " : String).length := by decide
    omega
  · rw [← h]
    refine ⟨str_ne_empty_of_pos _ ?_, by simp [missionDoc]⟩
    simp only [missionDoc, String.length_append]
    have h1 : 0 < ("\n" : String).length := by decide
    omega
  · subst h
    refine ⟨str_ne_empty_of_pos _ ?_, by simp [contactDoc]⟩
    simp only [contactDoc, String.length_append]
    have h1 : 0 < ("Contact Information:\nEmail: " : String).length := by decide
    omega

theorem derived_doc_invariants_witness :
    (companyDoc exData).content ≠ "" ∧
      (companyDoc exData).type
        ∈ (["company_info", "employee", "mission", "contact"] : List String) :=
  derived_doc_invariants exData (companyDoc exData)
    (by simp [createDocumentsFromData])

/-! ### C1 and C2 : emptiness of the selection, and the context fallback -/

lemma sortScoredDesc_length (l : List ScoredDoc) :
    (sortScoredDesc l).length = l.length := by
  simp [sortScoredDesc]

lemma findRelevantDocuments_eq_nil_iff (question : String) (documents : List Doc) :
    findRelevantDocuments question documents = [] ↔
      ∀ doc ∈ documents, scoreDoc (questionWords question) doc = 0 := by
  unfold findRelevantDocuments
  rw [List.take_eq_nil_iff, or_iff_right (by decide : (5 : Nat) ≠ 0)]
  have hlen := sortScoredDesc_length
    ((scoredDocs question documents).filter (fun d => decide (0 < d.score)))
  constructor
  · intro h
    have hzero : ((scoredDocs question documents).filter
        (fun d => decide (0 < d.score))).length = 0 := by
      rw [← hlen, h]
      rfl
    have hF := List.length_eq_zero.mp hzero
    intro doc hdoc
    have hmem : (⟨doc, scoreDoc (questionWords question) doc⟩ : ScoredDoc)
        ∈ scoredDocs question documents :=
      List.mem_map_of_mem _ hdoc
    have hnot := List.filter_eq_nil_iff.mp hF _ hmem
    simp at hnot
    omega
  · intro h
    have hF : (scoredDocs question documents).filter
        (fun d => decide (0 < d.score)) = [] := by
      apply List.filter_eq_nil_iff.mpr
      intro a ha
      rcases List.mem_map.mp ha with ⟨doc, hdoc, rfl⟩
      simp
      exact h doc hdoc
    rw [hF]
    rfl

/-- C1 (counterexample): the example knowledge base is non-empty and derives a
non-empty document list, yet on the empty question (whose term list is empty)
`findRelevantDocuments` returns the empty sequence — the selection function
itself does not satisfy the non-emptiness contract; the fallback lives in the
context-assembly step of `runFAQAgent` instead. -/
theorem selection_empty_on_empty_question :
    createDocumentsFromData exData ≠ [] ∧
      findRelevantDocuments "" (createDocumentsFromData exData) = [] := by
  exact ⟨by decide, by decide⟩

/-- C1 (amended): `findRelevantDocuments` returns a non-empty sequence exactly
when at least one document scores above 0 for the question's terms; when no
document does (e.g. an empty, punctuation-only or stop-word-only question) it
returns the empty sequence, and the never-empty guarantee is provided one step
later by the context-assembly fallback. -/
theorem findRelevantDocuments_ne_nil_iff (question : String)
    (documents : List Doc) :
    findRelevantDocuments question documents ≠ [] ↔
      ∃ doc ∈ documents, 0 < scoreDoc (questionWords question) doc := by
  rw [ne_eq, findRelevantDocuments_eq_nil_iff]
  constructor
  · intro h
    by_contra hc
    push_neg at hc
    apply h
    intro doc hdoc
    have := hc doc hdoc
    omega
  · rintro ⟨doc, hdoc, hpos⟩ h
    have := h doc hdoc
    omega

/-- C2: whenever the question's terms give every derived document score 0
(the empty term list included), the assembled context is exactly the
synthetic minimal context `Company: <name>\n<mission statement>`, which is
never the empty string; `buildContext` is total — no error path exists for
the no-relevant-documents condition. -/
theorem context_fallback_on_zero_scores (d : FaqData) (question : String)
    (h : ∀ doc ∈ createDocumentsFromData d,
        scoreDoc (questionWords question) doc = 0) :
    buildContext d question
        = "Company: " ++ d.companyName ++ "\n" ++ d.missionStatement ∧
      buildContext d question ≠ "" := by
  have hnil : findRelevantDocuments question (createDocumentsFromData d) = [] :=
    (findRelevantDocuments_eq_nil_iff question (createDocumentsFromData d)).mpr h
  have hctx : buildContext d question = fallbackContext d := by
    unfold buildContext
    simp [hnil]
  constructor
  · rw [hctx]
    rfl
  · rw [hctx]
    apply str_ne_empty_of_pos
    simp only [fallbackContext, String.length_append]
    have h1 : 0 < ("Company: " : String).length := by decide
    omega

theorem context_fallback_on_zero_scores_witness :
    buildContext exData ""
        = "Company: " ++ exData.companyName ++ "\n" ++ exData.missionStatement ∧
      buildContext exData "" ≠ "" :=
  context_fallback_on_zero_scores exData "" (by decide)

/-! ### C4 : the process-wide cache -/

lemma runAgentCalls_invariant (src : FaqData) (n : Nat) (h : 1 ≤ n) :
    (runAgentCalls src n).1 = ⟨some src, 1⟩ ∧
      ∀ out ∈ (runAgentCalls src n).2, out = createDocumentsFromData src := by
  induction n with
  | zero => omega
  | succ m ih =>
    rcases Nat.eq_zero_or_pos m with hm | hm
    · subst hm
      refine ⟨rfl, ?_⟩
      intro out hout
      simp [runAgentCalls, agentLoadStep, initialCache] at hout
      exact hout
    · obtain ⟨hstate, houts⟩ := ih hm
      constructor
      · simp only [runAgentCalls]
        rw [hstate]
        rfl
      · intro out hout
        simp only [runAgentCalls] at hout
        rw [hstate] at hout
        simp only [agentLoadStep, List.mem_append, List.mem_singleton] at hout
        rcases hout with hout | hout
        · exact houts out hout
        · exact hout

lemma runAgentCalls_output_count (src : FaqData) (n : Nat) :
    (runAgentCalls src n).2.length = n := by
  induction n with
  | zero => rfl
  | succ m ih =>
    simp only [runAgentCalls, List.length_append, List.length_singleton, ih]

/-- C4: starting from the empty cache, across `n ≥ 1` retrieval calls within
one process the loader is invoked exactly once (on the first call, which
fills the cache), each call produces one document sequence, and every call's
sequence equals the first call's — `createDocumentsFromData src`. -/
theorem loader_once_and_documents_stable (src : FaqData) (n : Nat)
    (h : 1 ≤ n) :
    (runAgentCalls src n).1.loaderCalls = 1 ∧
      (runAgentCalls src n).2.length = n ∧
      ∀ out ∈ (runAgentCalls src n).2, out = createDocumentsFromData src := by
  obtain ⟨hstate, houts⟩ := runAgentCalls_invariant src n h
  refine ⟨?_, runAgentCalls_output_count src n, houts⟩
  rw [hstate]

theorem loader_once_and_documents_stable_witness :
    (runAgentCalls exData 3).1.loaderCalls = 1 ∧
      (runAgentCalls exData 3).2.length = 3 ∧
      ∀ out ∈ (runAgentCalls exData 3).2, out = createDocumentsFromData exData :=
  loader_once_and_documents_stable exData 3 (by decide)

/-! ### C10 : field preservation -/

/-- C10: every element of the returned sequence is one of the input documents
with all its fields unchanged (carried intact in the `doc` component, as the
JS spread `{ ...doc, score }` copies them) together with a `score` field equal
to that document's relevance score for the question; the embedding is pure,
so the input documents are not mutated (in the JS, `map` builds a fresh array
of fresh objects and `sort` reorders only that fresh array). -/
theorem findRelevantDocuments_preserves_docs (question : String)
    (documents : List Doc) (s : ScoredDoc)
    (hmem : s ∈ findRelevantDocuments question documents) :
    s.doc ∈ documents ∧ s.score = scoreDoc (questionWords question) s.doc := by
  unfold findRelevantDocuments at hmem
  have hmem2 : s ∈ sortScoredDesc ((scoredDocs question documents).filter
      (fun d => decide (0 < d.score))) :=
    (List.take_sublist 5 _).mem hmem
  unfold sortScoredDesc at hmem2
  rcases List.mem_map.mp hmem2 with ⟨p, hp, hsnd⟩
  rw [List.mem_insertionSort] at hp
  have hps : p.2 ∈ ((scoredDocs question documents).filter
      (fun d => decide (0 < d.score))) := by
    have hmm := List.mem_map_of_mem Prod.snd hp
    rwa [List.enum_map_snd] at hmm
  rw [hsnd] at hps
  have hsc := (List.mem_filter.mp hps).1
  rcases List.mem_map.mp hsc with ⟨doc, hdoc, hval⟩
  rw [← hval]
  exact ⟨hdoc, rfl⟩

theorem findRelevantDocuments_preserves_docs_witness :
    (⟨exMissionTextDoc, 1⟩ : ScoredDoc).doc ∈ [exMissionTextDoc] ∧
      (⟨exMissionTextDoc, 1⟩ : ScoredDoc).score
        = scoreDoc (questionWords "mission") (⟨exMissionTextDoc, 1⟩ : ScoredDoc).doc :=
  findRelevantDocuments_preserves_docs "mission" [exMissionTextDoc]
    ⟨exMissionTextDoc, 1⟩ (by decide)

/-! ### C5 : full characterization of the selection -/

lemma rankLE_antisymm_on (a b : Nat × ScoredDoc) (hab : rankLE a b)
    (hba : rankLE b a) : a.2.score = b.2.score ∧ a.1 = b.1 := by
  rcases hab with h1 | ⟨h1, h1'⟩ <;> rcases hba with h2 | ⟨h2, h2'⟩ <;> omega

lemma sorted_nodup_fst_perm_eq :
    ∀ (l₁ l₂ : List (Nat × ScoredDoc)), l₁.Perm l₂ →
      l₁.Pairwise rankLE → l₂.Pairwise rankLE →
      (l₂.map Prod.fst).Nodup → l₁ = l₂
  | [], l₂, hp, _, _, _ => (hp.symm.eq_nil).symm
  | a :: t₁, l₂, hp, hs₁, hs₂, hnd => by
    match l₂ with
    | [] => exact absurd hp.eq_nil (by simp)
    | b :: t₂ =>
      rw [List.map_cons] at hnd
      have hndhead := (List.nodup_cons.mp hnd).1
      have hndtail := (List.nodup_cons.mp hnd).2
      have hab : a = b := by
        by_contra hne
        have ha2 : a ∈ b :: t₂ := hp.mem_iff.mp (List.mem_cons_self a t₁)
        have hb1 : b ∈ a :: t₁ := hp.mem_iff.mpr (List.mem_cons_self b t₂)
        have ha2' : a ∈ t₂ := by
          rcases List.mem_cons.mp ha2 with h | h
          · exact absurd h hne
          · exact h
        have hb1' : b ∈ t₁ := by
          rcases List.mem_cons.mp hb1 with h | h
          · exact absurd h.symm hne
          · exact h
        have hrab : rankLE a b := (List.pairwise_cons.mp hs₁).1 b hb1'
        have hrba : rankLE b a := (List.pairwise_cons.mp hs₂).1 a ha2'
        obtain ⟨hseq, hieq⟩ := rankLE_antisymm_on a b hrab hrba
        apply hndhead
        rw [← hieq]
        exact List.mem_map_of_mem Prod.fst ha2'
      subst hab
      have hrec := sorted_nodup_fst_perm_eq t₁ t₂ hp.cons_inv
        (List.pairwise_cons.mp hs₁).2 (List.pairwise_cons.mp hs₂).2 hndtail
      rw [hrec]

/-- C5: the selection returns precisely the first five entries of any
arrangement of the position-annotated positive-score documents that is sorted
by `rankLE` (score strictly descending, ties broken by the original position,
i.e. a stable descending sort); so it consists of exactly the documents
scoring above 0, ranked by score with original-order tie-break, truncated to
the default k = 5. -/
theorem findRelevantDocuments_eq_take_five (question : String)
    (documents : List Doc) (l : List (Nat × ScoredDoc))
    (hperm : l.Perm (((scoredDocs question documents).filter
        (fun d => decide (0 < d.score))).enum))
    (hsorted : l.Pairwise rankLE) :
    findRelevantDocuments question documents = (l.map Prod.snd).take 5 := by
  unfold findRelevantDocuments sortScoredDesc
  set F := (scoredDocs question documents).filter (fun d => decide (0 < d.score))
    with hF
  have hperm2 : l.Perm (F.enum.insertionSort rankLE) :=
    hperm.trans (List.perm_insertionSort rankLE F.enum).symm
  have hsorted2 : (F.enum.insertionSort rankLE).Pairwise rankLE :=
    List.sorted_insertionSort rankLE F.enum
  have hndfst : (F.enum.map Prod.fst).Nodup := by
    rw [List.enum_map_fst]
    exact List.nodup_range _
  have hnd : ((F.enum.insertionSort rankLE).map Prod.fst).Nodup :=
    (((List.perm_insertionSort rankLE F.enum).map Prod.fst).nodup_iff).mpr hndfst
  have heq := sorted_nodup_fst_perm_eq l (F.enum.insertionSort rankLE)
    hperm2 hsorted hsorted2 hnd
  rw [heq]

theorem findRelevantDocuments_eq_take_five_witness :
    findRelevantDocuments "alpha beta" [exDocWide, exDocNarrow]
      = ((((scoredDocs "alpha beta" [exDocWide, exDocNarrow]).filter
            (fun d => decide (0 < d.score))).enum).map Prod.snd).take 5 :=
  findRelevantDocuments_eq_take_five "alpha beta" [exDocWide, exDocNarrow]
    (((scoredDocs "alpha beta" [exDocWide, exDocNarrow]).filter
        (fun d => decide (0 < d.score))).enum)
    (List.Perm.refl _) (by decide)
